import Mathlib

/-!
Shallow embedding of the bike-availability prediction pipeline in
`prediction_module.py`, together with theorems settling the spec's claims
about it.

Modelling conventions:
* timestamps (`updated_at`) are minutes since an epoch taken to fall on a
  Monday midnight, as an integer;
* numeric dataframe cells that may be missing or non-numeric are `Option ℚ`
  (`none` is the NaN that `pd.to_numeric(errors="coerce")` produces, later
  filled with 0);
* float arithmetic is modelled exactly: rationals for the decoded values,
  reals for the encoder and the network (sin/cos/exp/tanh);
* a Python exception is an `Option` `none`.
-/

/-- Raw observation row for one station, as `predict_station` consumes it:
the parsed `updated_at` timestamp (minutes), and the numeric columns
`available_to_total_ratio`, `geo_point_2d.lon`, `geo_point_2d.lat`, `total`,
each `none` when missing or non-numeric. -/
structure Obs where
  updated_at : ℤ
  ratio : Option ℚ
  lon : Option ℚ
  lat : Option ℚ
  total : Option ℚ
deriving DecidableEq

/-- Padding step of `predict_station` (lines 78-82): when the station history
is shorter than `seq_len`, rows equal to the first row (`df_station.iloc[0]`,
copied whole, timestamp included) are prepended; on an empty history
`iloc[0]` raises, modelled as `none`. -/
def padHistory (h : List Obs) (seq_len : ℕ) : Option (List Obs) :=
  if h.length < seq_len then
    match h with
    | [] => none
    | o :: rest => some (List.replicate (seq_len - (o :: rest).length) o ++ (o :: rest))
  else
    some h

/-- Window selection of `predict_station` (line 84): `df_station.tail(seq_len)`
keeps the last `seq_len` rows of the possibly padded history. -/
def buildHistWindow (h : List Obs) (seq_len : ℕ) : Option (List Obs) :=
  (padHistory h seq_len).map (fun l => l.drop (l.length - seq_len))

/-- Python `int()` applied to an exact rational: truncation toward zero. -/
def pyInt (q : ℚ) : ℤ :=
  if 0 ≤ q then ⌊q⌋ else ⌈q⌉

/-- One decoded prediction entry, the dictionary appended at lines 142-148 of
`predict_station`. `time` is `last_time + timedelta(hours=hour)` in minutes;
the two formatted strings of the dictionary are determined by `time` and are
not modelled separately. -/
structure Prediction where
  hour : ℕ
  time : ℤ
  predicted_ratio : ℚ
  predicted_bikes : Option ℤ
deriving DecidableEq

/-- Body of the horizon loop (lines 133-148), `count` iterations starting at
`hour`: index `hour * 6 - 1` is read from `pred_ratios`, and the loop breaks
as soon as that index reaches the end of the list. -/
def decodeFrom (pred_ratios : List ℚ) (last_time : ℤ) (total_bikes : ℚ) :
    ℕ → ℕ → List Prediction
  | _, 0 => []
  | hour, count + 1 =>
    if hidx : hour * 6 - 1 < pred_ratios.length then
      { hour := hour
        time := last_time + 60 * (hour : ℤ)
        predicted_ratio := pred_ratios.get ⟨hour * 6 - 1, hidx⟩
        predicted_bikes :=
          if 0 < total_bikes then
            some (pyInt (pred_ratios.get ⟨hour * 6 - 1, hidx⟩ * total_bikes))
          else none } ::
      decodeFrom pred_ratios last_time total_bikes (hour + 1) count
    else []

/-- Horizon decoding of `predict_station` (lines 123-150):
`max_hours = min(int(prediction_hours), 24)` and the loop runs `hour` over
`range(1, max_hours + 1)`. -/
def decodePredictions (pred_ratios : List ℚ) (last_time : ℤ) (total_bikes : ℚ)
    (prediction_hours : ℤ) : List Prediction :=
  decodeFrom pred_ratios last_time total_bikes 1 (min prediction_hours 24).toNat

/-- Hour of day of a timestamp in minutes (`time.hour` in Python). -/
def hourOfTime (t : ℤ) : ℤ := t / 60 % 24

/-- Weekday index of a timestamp in minutes, Monday = 0 (`time.weekday()`);
the epoch of the minute count is a Monday midnight. -/
def weekdayOfTime (t : ℤ) : ℤ := t / 1440 % 7

/-- Feature encoding applied to each window row (lines 90-113 of
`predict_station`): ratio, longitude and latitude are coerced to numbers with
NaN filled by 0 (lines 106-110), and the four time features come from the
row's own timestamp (lines 93-99). -/
noncomputable def encodeObs (o : Obs) : List ℝ :=
  [ ((o.ratio.getD 0 : ℚ) : ℝ),
    ((o.lon.getD 0 : ℚ) : ℝ),
    ((o.lat.getD 0 : ℚ) : ℝ),
    Real.sin (2 * Real.pi * (hourOfTime o.updated_at : ℝ) / 24),
    Real.cos (2 * Real.pi * (hourOfTime o.updated_at : ℝ) / 24),
    (weekdayOfTime o.updated_at : ℝ),
    if 5 ≤ weekdayOfTime o.updated_at then 1 else 0 ]

/-- Window construction: the padded and truncated history rows, each encoded
by `encodeObs` (this is the tensor `X_window` of line 114). -/
noncomputable def buildWindow (h : List Obs) (seq_len : ℕ) :
    Option (List (List ℝ)) :=
  (buildHistWindow h seq_len).map (List.map encodeObs)

/-- Shallow embedding of `predict_station` (lines 63-150). The sequence model
is the parameter `model`, returning `none` when its evaluation raises; a
`none` result of the whole function models an exception escaping
`predict_station` (empty history at `iloc[0]`, empty window at `iloc[-1]`,
or a model failure). The total capacity is `pd.to_numeric` of the last row's
`total` with NaN replaced by 0 (lines 117-121). -/
noncomputable def predict_station (model : List (List ℝ) → Option (List ℚ))
    (df_station : List Obs) (prediction_hours : ℤ) (seq_len : ℕ) :
    Option (List Prediction) :=
  match buildHistWindow df_station seq_len with
  | none => none
  | some rows =>
    match rows.getLast? with
    | none => none
    | some last_row =>
      match model (rows.map encodeObs) with
      | none => none
      | some pred_ratios =>
        some (decodePredictions pred_ratios last_row.updated_at
          (last_row.total.getD 0) prediction_hours)

/-- First-occurrence-order distinct values with an accumulator of already seen
values; `uniqueKeysAux [] l` is what `df["number"].unique()` returns for the
column `l`. -/
def uniqueKeysAux : List ℤ → List ℤ → List ℤ
  | _, [] => []
  | seen, x :: xs =>
    if x ∈ seen then uniqueKeysAux seen xs
    else x :: uniqueKeysAux (x :: seen) xs

/-- Distinct station numbers in first-occurrence order
(`df["number"].unique()` at line 182). -/
def uniqueKeys (l : List ℤ) : List ℤ := uniqueKeysAux [] l

/-- Rows of the loaded table belonging to one station
(`df[df["number"] == station_num]` at line 183). -/
def stationHistory (data : List (ℤ × Obs)) (s : ℤ) : List Obs :=
  (data.filter (fun r => r.1 = s)).map (fun r => r.2)

/-- Shallow embedding of `get_predictions_for_all_stations`
(lines 153-192). `mload` is the outcome of the `load_model` try-block
(`none` models the exception path returning `{}`), `dload` that of the CSV
loading, timestamp parsing and sorting try-block, yielding the table rows in
sorted order. An exception inside `predict_station` for one station is
caught and recorded as `[]` (lines 185-190). The result is the station-to-
predictions mapping as an association list in key order. -/
noncomputable def get_predictions_for_all_stations
    (mload : Option (List (List ℝ) → Option (List ℚ)))
    (dload : Option (List (ℤ × Obs))) (prediction_hours : ℤ) (seq_len : ℕ) :
    List (ℤ × List Prediction) :=
  match mload with
  | none => []
  | some model =>
    match dload with
    | none => []
    | some data =>
      (uniqueKeys (data.map (fun r => r.1))).map
        (fun s => (s, (predict_station model (stationHistory data s)
          prediction_hours seq_len).getD []))

/-- Rectified linear unit, `nn.ReLU`. -/
def relu (x : ℝ) : ℝ := max x 0

/-- Logistic function, `nn.Sigmoid` / the sigmoid gates of the GRU, in exact
real arithmetic. -/
noncomputable def sigmoid (x : ℝ) : ℝ := 1 / (1 + Real.exp (-x))

/-- Weights and bias of one `nn.Linear` layer; row `i` of `weight` holds the
input coefficients of output `i`. -/
structure LinearLayer where
  weight : List (List ℝ)
  bias : List ℝ

/-- Dot product of two coefficient vectors (zipped, so truncated to the
shorter one). -/
def dotProd (w x : List ℝ) : ℝ := ((w.zip x).map (fun p => p.1 * p.2)).sum

/-- Forward pass of `nn.Linear`: one output per (row, bias) pair. -/
def linearForward (L : LinearLayer) (x : List ℝ) : List ℝ :=
  (L.weight.zip L.bias).map (fun p => dotProd p.1 x + p.2)

/-- The `features` block of `GRUModel` in evaluation mode: two linear layers,
each followed by dropout (inactive after `model.eval()`) and ReLU. -/
def featuresForward (l1 l2 : LinearLayer) (x : List ℝ) : List ℝ :=
  (linearForward l2 ((linearForward l1 x).map relu)).map relu

/-- Parameter tensors of a single-layer `nn.GRU` (`weight_ih` split into the
reset, update and new gates, likewise `weight_hh`, with the matching bias
vectors). -/
structure GRUWeights where
  w_ir : List (List ℝ)
  w_iz : List (List ℝ)
  w_in : List (List ℝ)
  w_hr : List (List ℝ)
  w_hz : List (List ℝ)
  w_hn : List (List ℝ)
  b_ir : List ℝ
  b_iz : List ℝ
  b_in : List ℝ
  b_hr : List ℝ
  b_hz : List ℝ
  b_hn : List ℝ

/-- Elementwise sum of two vectors. -/
def addVec (a b : List ℝ) : List ℝ := List.zipWith (fun x y => x + y) a b

/-- Elementwise (Hadamard) product of two vectors. -/
def mulVec (a b : List ℝ) : List ℝ := List.zipWith (fun x y => x * y) a b

/-- One GRU step in the PyTorch convention:
`r = σ(W_ir x + b_ir + W_hr h + b_hr)`, `z = σ(W_iz x + b_iz + W_hz h + b_hz)`,
`n = tanh(W_in x + b_in + r ⊙ (W_hn h + b_hn))`,
`h = (1 - z) ⊙ n + z ⊙ h`. -/
noncomputable def gruCell (g : GRUWeights) (x h : List ℝ) : List ℝ :=
  let r := (addVec (linearForward ⟨g.w_ir, g.b_ir⟩ x)
    (linearForward ⟨g.w_hr, g.b_hr⟩ h)).map sigmoid
  let z := (addVec (linearForward ⟨g.w_iz, g.b_iz⟩ x)
    (linearForward ⟨g.w_hz, g.b_hz⟩ h)).map sigmoid
  let n := (addVec (linearForward ⟨g.w_in, g.b_in⟩ x)
    (mulVec r (linearForward ⟨g.w_hn, g.b_hn⟩ h))).map Real.tanh
  addVec (mulVec (z.map (fun zi => 1 - zi)) n) (mulVec z h)

/-- Parameters of `GRUModel` (lines 8-28): the two-layer feature projection,
the recurrent weights with their hidden size, and the fully connected output
head. -/
structure GRUModel where
  feat1 : LinearLayer
  feat2 : LinearLayer
  gru : GRUWeights
  hidden_dim : ℕ
  fc : LinearLayer

/-- Forward pass of `GRUModel` in evaluation mode (lines 25-28): per-step
feature projection, the GRU run over the sequence from the zero initial
hidden state, the last step's output (`output[:, -1, :]`, which for a
single-layer GRU is the final hidden state), then the output head
`fc` = linear + sigmoid. -/
noncomputable def GRUModel.forward (m : GRUModel) (xs : List (List ℝ)) :
    List ℝ :=
  let projected := xs.map (featuresForward m.feat1 m.feat2)
  let lastHidden := projected.foldl (fun h x => gruCell m.gru x h)
    (List.replicate m.hidden_dim 0)
  (linearForward m.fc lastHidden).map sigmoid

/-- Output length fixed by `load_model` (line 34): `output_len = 144`. -/
def load_model_output_len : ℕ := 144
/-- Every entry emitted by the horizon loop: its hour lies in the iteration
range, its index was in bounds, and the time, ratio and bikes fields are the
ones of lines 139-147. -/
theorem mem_decodeFrom (r : List ℚ) (lt : ℤ) (tb : ℚ) :
    ∀ (count hour : ℕ) (p : Prediction), p ∈ decodeFrom r lt tb hour count →
      hour ≤ p.hour ∧ p.hour < hour + count ∧ p.hour * 6 - 1 < r.length ∧
      p.time = lt + 60 * (p.hour : ℤ) ∧
      p.predicted_ratio = r.getD (p.hour * 6 - 1) 0 ∧
      p.predicted_bikes =
        (if 0 < tb then some (pyInt (p.predicted_ratio * tb)) else none) := by
  intro count
  induction count with
  | zero => intro hour p hp; simp [decodeFrom] at hp
  | succ k ih =>
    intro hour p hp
    rw [decodeFrom] at hp
    split at hp
    · rcases List.mem_cons.mp hp with hpe | hpr
      · subst hpe
        refine ⟨le_refl _, ?_, by assumption, rfl, ?_, rfl⟩
        · show hour < hour + (k + 1); omega
        · show r.get _ = r.getD (hour * 6 - 1) 0
          rw [List.getD_eq_getElem?_getD, List.getElem?_eq_getElem (by assumption),
            List.get_eq_getElem]
          rfl
      · have := ih (hour + 1) p hpr
        exact ⟨by omega, by omega, this.2.2.1, this.2.2.2.1, this.2.2.2.2.1,
          this.2.2.2.2.2⟩
    · simp at hp

/-- When every index visited is in bounds, the horizon loop emits exactly the
hours `hour, hour+1, …, hour+count-1`. -/
theorem map_hour_decodeFrom (r : List ℚ) (lt : ℤ) (tb : ℚ) :
    ∀ (count hour : ℕ),
      (∀ k, hour ≤ k → k < hour + count → k * 6 - 1 < r.length) →
      (decodeFrom r lt tb hour count).map Prediction.hour =
        List.range' hour count := by
  intro count
  induction count with
  | zero => intro hour _; simp [decodeFrom]
  | succ k ih =>
    intro hour hbound
    rw [decodeFrom]
    have h1 : hour * 6 - 1 < r.length := hbound hour (le_refl _) (by omega)
    rw [dif_pos h1]
    simp only [List.map_cons, List.range'_succ]
    congr 1
    exact ih (hour + 1) (fun k hk1 hk2 => hbound k (by omega) (by omega))

/-- The padded-and-truncated history of a non-empty station history in closed
form: for a short history, the earliest row repeated followed by the history;
otherwise the last `seq_len` rows. -/
theorem buildHistWindow_cons (o : Obs) (rest : List Obs) (n : ℕ) :
    buildHistWindow (o :: rest) n =
      some (if (o :: rest).length < n then
          List.replicate (n - (o :: rest).length) o ++ (o :: rest)
        else (o :: rest).drop ((o :: rest).length - n)) := by
  by_cases hlt : (o :: rest).length < n
  · simp only [buildHistWindow, padHistory, if_pos hlt, Option.map_some']
    congr 1
    have hlen : (List.replicate (n - (o :: rest).length) o ++ o :: rest).length = n := by
      simp only [List.length_append, List.length_replicate, List.length_cons] at hlt ⊢
      omega
    rw [hlen, Nat.sub_self, List.drop_zero]
  · simp only [buildHistWindow, padHistory, if_neg hlt, Option.map_some']

/-- The window over a non-empty history always exists and has exactly
`seq_len` rows. -/
theorem buildHistWindow_length (o : Obs) (rest : List Obs) (n : ℕ) :
    ((buildHistWindow (o :: rest) n).getD []).length = n := by
  rw [buildHistWindow_cons]
  split
  · rename_i hlt
    simp only [Option.getD_some, List.length_append, List.length_replicate,
      List.length_cons] at hlt ⊢
    omega
  · rename_i hlt
    simp only [Option.getD_some, List.length_drop, List.length_cons] at hlt ⊢
    omega

/-- Membership in the accumulator-based unique pass: exactly the values of
the list not already seen. -/
theorem mem_uniqueKeysAux (x : ℤ) :
    ∀ (l seen : List ℤ), x ∈ uniqueKeysAux seen l ↔ x ∈ l ∧ x ∉ seen := by
  intro l
  induction l with
  | nil => intro seen; simp [uniqueKeysAux]
  | cons a as ih =>
    intro seen
    by_cases ha : a ∈ seen
    · rw [uniqueKeysAux, if_pos ha, ih]
      constructor
      · rintro ⟨h1, h2⟩; exact ⟨List.mem_cons_of_mem _ h1, h2⟩
      · rintro ⟨h1, h2⟩
        rcases List.mem_cons.mp h1 with rfl | h1
        · exact absurd ha h2
        · exact ⟨h1, h2⟩
    · rw [uniqueKeysAux, if_neg ha]
      constructor
      · intro h
        rcases List.mem_cons.mp h with rfl | h
        · exact ⟨List.mem_cons_self _ _, ha⟩
        · rcases (ih (a :: seen)).mp h with ⟨h1, h2⟩
          exact ⟨List.mem_cons_of_mem _ h1,
            fun hx => h2 (List.mem_cons_of_mem _ hx)⟩
      · rintro ⟨h1, h2⟩
        rcases List.mem_cons.mp h1 with rfl | h1
        · exact List.mem_cons_self _ _
        · by_cases hxa : x = a
          · subst hxa; exact List.mem_cons_self _ _
          · exact List.mem_cons_of_mem _ ((ih (a :: seen)).mpr
              ⟨h1, by simp [hxa, h2]⟩)

/-- A station number occurs among the unique keys iff it occurs in the
column. -/
theorem mem_uniqueKeys (x : ℤ) (l : List ℤ) : x ∈ uniqueKeys l ↔ x ∈ l := by
  rw [uniqueKeys, mem_uniqueKeysAux]
  simp

/-- The logistic function is positive. -/
theorem sigmoid_pos (x : ℝ) : 0 < sigmoid x := by
  unfold sigmoid
  positivity

/-- The logistic function is below one. -/
theorem sigmoid_lt_one (x : ℝ) : sigmoid x < 1 := by
  unfold sigmoid
  rw [div_lt_one (by positivity)]
  have := Real.exp_pos (-x)
  linarith

/-- Packaging of `buildHistWindow_cons`: the window rows exist and number
exactly `seq_len`. -/
theorem buildHistWindow_cons_some (o : Obs) (rest : List Obs) (n : ℕ) :
    ∃ rows, buildHistWindow (o :: rest) n = some rows ∧ rows.length = n := by
  refine ⟨(buildHistWindow (o :: rest) n).getD [], ?_, buildHistWindow_length o rest n⟩
  rw [buildHistWindow_cons]
  rfl

/-- Evaluation of `predict_station` once the window, its last row and the
model output are known. -/
theorem predict_station_some (model : List (List ℝ) → Option (List ℚ))
    (h : List Obs) (H : ℤ) (n : ℕ) (rows : List Obs)
    (hbw : buildHistWindow h n = some rows)
    (lr : Obs) (hlr : rows.getLast? = some lr)
    (rs : List ℚ) (hm : model (rows.map encodeObs) = some rs) :
    predict_station model h H n =
      some (decodePredictions rs lr.updated_at (lr.total.getD 0) H) := by
  simp only [predict_station, hbw, hlr, hm]

/-- C4: for a 144-length model output and any requested horizon `H`, the
decoded predictions carry the hours `1, 2, …, (min H 24).toNat` in ascending
order (never stopping early, since every index `h*6 - 1 ≤ 143` is in
bounds), and each prediction reads its ratio at index `hour*6 - 1` and is
stamped `last_time + hour` hours. -/
theorem decode_hours_and_fields (r : List ℚ) (lt : ℤ) (tb : ℚ) (H : ℤ)
    (hr : r.length = 144) :
    (decodePredictions r lt tb H).map Prediction.hour =
      List.range' 1 (min H 24).toNat ∧
    ∀ p ∈ decodePredictions r lt tb H,
      p.time = lt + 60 * (p.hour : ℤ) ∧
      p.predicted_ratio = r.getD (p.hour * 6 - 1) 0 ∧
      p.hour * 6 - 1 < r.length := by
  constructor
  · apply map_hour_decodeFrom
    intro k hk1 hk2
    have h24 : (min H 24).toNat ≤ 24 := by omega
    omega
  · intro p hp
    have h := mem_decodeFrom r lt tb _ _ p hp
    exact ⟨h.2.2.2.1, h.2.2.2.2.1, h.2.2.1⟩

/-- Witness for `decode_hours_and_fields`: with a concrete 144-length output
and `H = 24` the decoded hours are exactly `1, …, 24`. -/
theorem decode_hours_and_fields_witness :
    (decodePredictions (List.replicate 144 ((1:ℚ)/2)) 0 0 24).map
      Prediction.hour = List.range' 1 24 :=
  (decode_hours_and_fields (List.replicate 144 ((1:ℚ)/2)) 0 0 24 (by simp)).1

/-- Concrete decoding used for the C1 counterexample and witness: output
`9/10` everywhere, capacity 1, horizon 1 — the code emits
`int(0.9 * 1) = 0` bikes. -/
theorem decodeSingleNineTenths :
    decodePredictions (List.replicate 6 ((9:ℚ)/10)) 0 1 1 =
      [⟨1, 60, 9/10, some 0⟩] := by
  simp [decodePredictions, decodeFrom, pyInt, List.get]
  norm_num

/-- C1 counterexample: at predicted ratio `9/10` and known positive capacity
`1`, the decoder's `bikes` field is `0` (truncation by `int()`), while the
nearest-integer rounding of `ratio * capacity` is `1` — so `bikes` does not
equal `round(ratio * capacity)`. -/
theorem bikes_round_counterexample :
    (decodePredictions (List.replicate 6 ((9:ℚ)/10)) 0 1 1).map
      Prediction.predicted_bikes = [some 0] ∧
    (decodePredictions (List.replicate 6 ((9:ℚ)/10)) 0 1 1).map
      (fun p => round (p.predicted_ratio * (1:ℚ))) = [1] := by
  rw [decodeSingleNineTenths]
  refine ⟨rfl, ?_⟩
  simp only [List.map_cons, List.map_nil]
  rw [round_eq]
  norm_num

/-- C1 amended: for every prediction produced with a known positive capacity,
the `bikes` field is the truncation toward zero (Python `int()`) of
`ratio * capacity`, not its nearest-integer rounding. -/
theorem bikes_eq_trunc_of_pos_capacity (r : List ℚ) (lt : ℤ) (tb : ℚ) (H : ℤ)
    (htb : 0 < tb) :
    ∀ p ∈ decodePredictions r lt tb H,
      p.predicted_bikes = some (pyInt (p.predicted_ratio * tb)) := by
  intro p hp
  have h := mem_decodeFrom r lt tb _ _ p hp
  rw [h.2.2.2.2.2, if_pos htb]

/-- Witness for `bikes_eq_trunc_of_pos_capacity` at ratio `9/10`,
capacity 1. -/
theorem bikes_eq_trunc_witness :
    (⟨1, 60, (9:ℚ)/10, some 0⟩ : Prediction).predicted_bikes =
      some (pyInt ((9:ℚ)/10 * 1)) :=
  bikes_eq_trunc_of_pos_capacity (List.replicate 6 ((9:ℚ)/10)) 0 1 1
    (by norm_num) ⟨1, 60, (9:ℚ)/10, some 0⟩
    (by rw [decodeSingleNineTenths]; exact List.mem_singleton_self _)

/-- C8: when the last row's `total` is missing/non-numeric (`none`, the NaN
case coerced to 0 at lines 119-121) or equal to 0, every decoded prediction
has an absent `bikes` field. -/
theorem bikes_none_of_capacity_unknown (r : List ℚ) (lt : ℤ) (tc : Option ℚ)
    (H : ℤ) (htc : tc = none ∨ tc = some 0) :
    ∀ p ∈ decodePredictions r lt (tc.getD 0) H, p.predicted_bikes = none := by
  intro p hp
  have h0 : (tc.getD 0 : ℚ) = 0 := by rcases htc with rfl | rfl <;> rfl
  have h := mem_decodeFrom r lt (tc.getD 0) _ _ p hp
  rw [h.2.2.2.2.2, h0, if_neg (lt_irrefl 0)]

set_option maxRecDepth 4000 in
/-- Concrete decoding used for the C8 witness: capacity column missing,
horizon 1. -/
theorem decodeSingleHalfNoCapacity :
    decodePredictions (List.replicate 144 ((1:ℚ)/2)) 0
      ((none : Option ℚ).getD 0) 1 = [⟨1, 60, 1/2, none⟩] := rfl

/-- Witness for `bikes_none_of_capacity_unknown` with a missing capacity
column. -/
theorem bikes_none_of_capacity_unknown_witness :
    (⟨1, 60, (1:ℚ)/2, none⟩ : Prediction).predicted_bikes = none :=
  bikes_none_of_capacity_unknown (List.replicate 144 ((1:ℚ)/2)) 0 none 1
    (Or.inl rfl) ⟨1, 60, (1:ℚ)/2, none⟩
    (by rw [decodeSingleHalfNoCapacity]; exact List.mem_singleton_self _)

/-- C10: for a non-empty history, a positive `seq_len` and a model whose
evaluation succeeds, a non-positive requested horizon makes
`predict_station` return the empty prediction list (the hour loop is
vacuous) rather than fail. -/
theorem nonpositive_horizon_empty (model : List (List ℝ) → Option (List ℚ))
    (o : Obs) (rest : List Obs) (H : ℤ) (n : ℕ)
    (hn : 1 ≤ n) (hH : H ≤ 0) (hm : ∀ x, (model x).isSome) :
    predict_station model (o :: rest) H n = some [] := by
  obtain ⟨rows, hbw, hlen⟩ := buildHistWindow_cons_some o rest n
  have hne : rows ≠ [] := by
    intro hnil
    rw [hnil] at hlen
    simp at hlen
    omega
  obtain ⟨lr, hlr⟩ := Option.isSome_iff_exists.mp (List.getLast?_isSome.mpr hne)
  obtain ⟨rs, hrs⟩ := Option.isSome_iff_exists.mp (hm (rows.map encodeObs))
  rw [predict_station_some model _ H n rows hbw lr hlr rs hrs]
  have hmin : (min H 24).toNat = 0 := by omega
  rw [decodePredictions, hmin]
  rfl

/-- Witness for `nonpositive_horizon_empty`: one observation, `seq_len = 24`,
horizon `-3`, a total model. -/
theorem nonpositive_horizon_empty_witness :
    predict_station (fun _ => some []) [⟨0, some 1, some 2, some 3, some 10⟩]
      (-3) 24 = some [] :=
  nonpositive_horizon_empty (fun _ => some [])
    ⟨0, some 1, some 2, some 3, some 10⟩ [] (-3) 24
    (by norm_num) (by norm_num) (fun _ => rfl)

/-- Concrete observation used in counterexamples and witnesses. -/
def obsA : Obs := ⟨0, some 1, some 2, some 3, some 20⟩

/-- C2 counterexample: for the single-observation history `[obsA]` and
`seq_len = 3`, the built window rows are three copies of `obsA`, so the
leading `seq_len - k = 2` padded entries all carry the timestamp of the
earliest observation — they are not pairwise distinct as the claim states. -/
theorem padding_timestamps_not_distinct :
    ((buildHistWindow [obsA] 3).getD []).map Obs.updated_at = [0, 0, 0] ∧
    ¬ ((((buildHistWindow [obsA] 3).getD []).take 2).Pairwise
        (fun a b => a.updated_at ≠ b.updated_at)) := by
  refine ⟨rfl, ?_⟩
  intro hpw
  have h2 : ([obsA, obsA] : List Obs).Pairwise
      (fun a b => a.updated_at ≠ b.updated_at) := hpw
  exact (List.pairwise_cons.mp h2).1 obsA (List.mem_cons_self _ _) rfl

/-- C2 corrected: for a chronologically sorted history with `k < seq_len`
observations, the first `seq_len - k` window rows are identical copies of the
earliest observation (timestamp included), and the first `seq_len - k`
entries of the encoded window are identical copies of the Feature Encoder
applied to that earliest observation at its own timestamp. -/
theorem padding_entries_replicate_earliest (o : Obs) (rest : List Obs) (n : ℕ)
    (hsorted : List.Sorted (fun a b : Obs => a.updated_at ≤ b.updated_at)
      (o :: rest))
    (hk : (o :: rest).length < n) :
    ((buildHistWindow (o :: rest) n).getD []).take (n - (o :: rest).length) =
      List.replicate (n - (o :: rest).length) o ∧
    ((buildWindow (o :: rest) n).getD []).take (n - (o :: rest).length) =
      List.replicate (n - (o :: rest).length) (encodeObs o) := by
  have hbw := buildHistWindow_cons o rest n
  rw [if_pos hk] at hbw
  constructor
  · rw [hbw, Option.getD_some]
    have ht := List.take_left (List.replicate (n - (o :: rest).length) o)
      (o :: rest)
    rwa [List.length_replicate] at ht
  · rw [buildWindow, hbw, Option.map_some', Option.getD_some,
      List.map_append, List.map_replicate]
    have ht := List.take_left
      (List.replicate (n - (o :: rest).length) (encodeObs o))
      ((o :: rest).map encodeObs)
    rwa [List.length_replicate] at ht

/-- Witness for `padding_entries_replicate_earliest`: one observation,
`seq_len = 3`. -/
theorem padding_entries_replicate_earliest_witness :
    ((buildHistWindow [obsA] 3).getD []).take 2 = List.replicate 2 obsA ∧
    ((buildWindow [obsA] 3).getD []).take 2 =
      List.replicate 2 (encodeObs obsA) :=
  padding_entries_replicate_earliest obsA [] 3 (List.sorted_singleton _)
    (by norm_num)

/-- C3: for every non-empty sorted history, the window exists, has exactly
`seq_len` encoded rows, and equals the encoding of either the
earliest-observation-padded history (short case) or of the most recent
`seq_len` observations (long case). -/
theorem window_length_and_content (o : Obs) (rest : List Obs) (n : ℕ)
    (hsorted : List.Sorted (fun a b : Obs => a.updated_at ≤ b.updated_at)
      (o :: rest)) :
    (buildWindow (o :: rest) n).isSome ∧
    ((buildWindow (o :: rest) n).getD []).length = n ∧
    (buildWindow (o :: rest) n).getD [] =
      (if (o :: rest).length < n then
        List.replicate (n - (o :: rest).length) (encodeObs o) ++
          (o :: rest).map encodeObs
      else ((o :: rest).drop ((o :: rest).length - n)).map encodeObs) := by
  have hbw := buildHistWindow_cons o rest n
  have hlen := buildHistWindow_length o rest n
  rw [hbw, Option.getD_some] at hlen
  refine ⟨?_, ?_, ?_⟩
  · rw [buildWindow, hbw]; rfl
  · rw [buildWindow, hbw, Option.map_some', Option.getD_some, List.length_map]
    exact hlen
  · rw [buildWindow, hbw, Option.map_some', Option.getD_some]
    split_ifs with hlt
    · rw [List.map_append, List.map_replicate]
    · rfl

/-- Witness for `window_length_and_content`: one observation,
`seq_len = 3`. -/
theorem window_length_and_content_witness :
    (buildWindow [obsA] 3).isSome ∧
    ((buildWindow [obsA] 3).getD []).length = 3 ∧
    (buildWindow [obsA] 3).getD [] =
      (if ([obsA] : List Obs).length < 3 then
        List.replicate (3 - ([obsA] : List Obs).length) (encodeObs obsA) ++
          [obsA].map encodeObs
      else ([obsA].drop (([obsA] : List Obs).length - 3)).map encodeObs) :=
  window_length_and_content obsA [] 3 (List.sorted_singleton _)

/-- C9: each numeric cell of an observation that is missing or non-numeric
is, individually, coerced to 0.0 in that observation's feature vector — the
per-field implications need nothing of the other cells, so they cover a lone
missing ratio (the common case: the aggregation collaborator emits a null
ratio when `total ≤ 0`) as well as any combination. The derived time
features are recomputed from the parsed timestamp at lines 93-99, so they
are always present as numbers and the coercion of lines 106-110 leaves them
unchanged: the encoded row always carries all 7 features. The observation is
never dropped (the window keeps exactly `seq_len` rows) and the station's
prediction still succeeds. -/
theorem malformed_coerced_to_zero (o : Obs) (h : List Obs)
    (model : List (List ℝ) → Option (List ℚ)) (H : ℤ) (n : ℕ)
    (hmem : o ∈ h) (hn : 1 ≤ n) (hm : ∀ x, (model x).isSome) :
    (o.ratio = none → (encodeObs o).getD 0 0 = 0) ∧
    (o.lon = none → (encodeObs o).getD 1 0 = 0) ∧
    (o.lat = none → (encodeObs o).getD 2 0 = 0) ∧
    (encodeObs o).length = 7 ∧
    (buildHistWindow h n).isSome ∧
    ((buildHistWindow h n).getD []).length = n ∧
    (predict_station model h H n).isSome := by
  obtain ⟨o0, rest, rfl⟩ : ∃ o0 rest, h = o0 :: rest := by
    cases h with
    | nil => exact absurd hmem (List.not_mem_nil o)
    | cons a as => exact ⟨a, as, rfl⟩
  obtain ⟨rows, hbw, hlen⟩ := buildHistWindow_cons_some o0 rest n
  refine ⟨?_, ?_, ?_, ?_, ?_, buildHistWindow_length _ _ _, ?_⟩
  · intro hr
    rw [encodeObs, hr]
    simp
  · intro hlon
    rw [encodeObs, hlon]
    simp
  · intro hlat
    rw [encodeObs, hlat]
    simp
  · rw [encodeObs]
    rfl
  · rw [hbw]; rfl
  · have hne : rows ≠ [] := by
      intro hnil
      rw [hnil] at hlen
      simp at hlen
      omega
    obtain ⟨lr, hlr⟩ :=
      Option.isSome_iff_exists.mp (List.getLast?_isSome.mpr hne)
    obtain ⟨rs, hrs⟩ :=
      Option.isSome_iff_exists.mp (hm (rows.map encodeObs))
    rw [predict_station_some model _ H n rows hbw lr hlr rs hrs]
    rfl

/-- Witness for `malformed_coerced_to_zero`: an observation whose ratio cell
alone is missing while the coordinates are valid numbers — its ratio feature
is coerced to 0, all 7 features are present, the window is full and the
prediction succeeds. -/
theorem malformed_coerced_to_zero_witness :
    (encodeObs ⟨0, none, some 2, some 3, some 10⟩).getD 0 0 = 0 ∧
    (encodeObs ⟨0, none, some 2, some 3, some 10⟩).length = 7 ∧
    (buildHistWindow [⟨0, none, some 2, some 3, some 10⟩] 24).isSome ∧
    ((buildHistWindow [⟨0, none, some 2, some 3, some 10⟩] 24).getD
      []).length = 24 ∧
    (predict_station (fun _ => some [])
      [⟨0, none, some 2, some 3, some 10⟩] 24 24).isSome := by
  have h := malformed_coerced_to_zero ⟨0, none, some 2, some 3, some 10⟩
    [⟨0, none, some 2, some 3, some 10⟩] (fun _ => some []) 24 24
    (List.mem_cons_self _ _) (by norm_num) (fun _ => rfl)
  exact ⟨h.1 rfl, h.2.2.2.1, h.2.2.2.2.1, h.2.2.2.2.2.1, h.2.2.2.2.2.2⟩

/-- C6: if predicting one station fails (the model raises, the history slice
is empty, …), the batch predictor still records that station, mapped to the
empty prediction list, and processes every distinct station of the table. -/
theorem batch_isolates_station_failures
    (model : List (List ℝ) → Option (List ℚ)) (data : List (ℤ × Obs))
    (H : ℤ) (n : ℕ) (s : ℤ)
    (hs : s ∈ data.map Prod.fst)
    (hfail : predict_station model (stationHistory data s) H n = none) :
    (s, ([] : List Prediction)) ∈
      get_predictions_for_all_stations (some model) (some data) H n ∧
    (get_predictions_for_all_stations (some model) (some data) H n).map
      Prod.fst = uniqueKeys (data.map Prod.fst) := by
  constructor
  · have hmem : s ∈ uniqueKeys (data.map Prod.fst) :=
      (mem_uniqueKeys _ _).mpr hs
    refine List.mem_map.mpr ⟨s, hmem, ?_⟩
    rw [hfail]
    rfl
  · show ((uniqueKeys (data.map Prod.fst)).map
        (fun s => (s,
          (predict_station model (stationHistory data s) H n).getD []))).map
        Prod.fst = uniqueKeys (data.map Prod.fst)
    rw [List.map_map]
    exact List.map_id _

/-- Witness for `batch_isolates_station_failures`: one station whose model
evaluation fails. -/
theorem batch_isolates_station_failures_witness :
    ((7 : ℤ), ([] : List Prediction)) ∈
      get_predictions_for_all_stations (some (fun _ => none))
        (some [(7, obsA)]) 24 24 ∧
    (get_predictions_for_all_stations (some (fun _ => none))
        (some [(7, obsA)]) 24 24).map Prod.fst =
      uniqueKeys ([((7 : ℤ), obsA)].map Prod.fst) :=
  batch_isolates_station_failures (fun _ => none) [(7, obsA)] 24 24 7
    (by simp) rfl

/-- C7: when loading the model fails, the batch predictor returns the empty
prediction map, with no station keys, whatever the data outcome. -/
theorem batch_empty_on_model_load_failure (dload : Option (List (ℤ × Obs)))
    (H : ℤ) (n : ℕ) :
    get_predictions_for_all_stations none dload H n = [] := rfl

/-- C5: with the output head shaped as `load_model` fixes it
(`output_len = 144` rows and bias entries), the forward pass in evaluation
mode yields exactly 144 values, each strictly between 0 and 1 (the image of
the sigmoid in exact arithmetic), for every input window. -/
theorem forward_length_and_range (m : GRUModel) (xs : List (List ℝ))
    (hw : m.fc.weight.length = load_model_output_len)
    (hb : m.fc.bias.length = load_model_output_len) :
    (m.forward xs).length = 144 ∧ ∀ y ∈ m.forward xs, 0 < y ∧ y < 1 := by
  rw [load_model_output_len] at hw hb
  constructor
  · simp only [GRUModel.forward, List.length_map, linearForward,
      List.length_zip, hw, hb, min_self]
  · intro y hy
    simp only [GRUModel.forward, List.mem_map] at hy
    obtain ⟨z, _, rfl⟩ := hy
    exact ⟨sigmoid_pos z, sigmoid_lt_one z⟩

/-- Degenerate parameter set with the `load_model` output shape, used as the
witness input. -/
def gruModelTrivial : GRUModel :=
  ⟨⟨[], []⟩, ⟨[], []⟩, ⟨[], [], [], [], [], [], [], [], [], [], [], []⟩, 0,
    ⟨List.replicate 144 [], List.replicate 144 0⟩⟩

/-- Witness for `forward_length_and_range` at the degenerate parameters and
the empty window. -/
theorem forward_length_witness :
    (gruModelTrivial.forward []).length = 144 :=
  (forward_length_and_range gruModelTrivial []
    (by simp [gruModelTrivial, load_model_output_len])
    (by simp [gruModelTrivial, load_model_output_len])).1
